import Mathlib

/-!
# Hex64Hash: a verification development

Shallow embedding of `Hex64Hash` (hex64hash.c) and proofs about it.

`uint32_t` values are natural numbers below `2 ^ 32`; every operation that can
overflow reduces its result modulo `2 ^ 32` explicitly.  The buffer `ctx` is a
list of words; reading or writing outside the buffer, and shifting by a count
that is not below the width of the type, are undefined in C and reported as an
error.
-/

namespace Hex64

/-! ## Machine words -/

/-- Addition of two `uint32_t` values (`+`, `+=`): wraps modulo `2 ^ 32`. -/
def add32 (x y : Nat) : Nat := (x + y) % 2 ^ 32

/-- Subtraction of two `uint32_t` values (`-=`): wraps modulo `2 ^ 32`. -/
def sub32 (x y : Nat) : Nat := (x + (2 ^ 32 - y % 2 ^ 32)) % 2 ^ 32

/-- The ways a statement of the program can be undefined in C. -/
inductive Undefined where
  | outOfBounds
  | shiftCount
deriving DecidableEq, Repr

/-- Left shift of a `uint32_t` (`x << n`): undefined for a count of 32 or more,
bits shifted out of the word are lost. -/
def shl32 (x n : Nat) : Except Undefined Nat :=
  if n < 32 then .ok ((x <<< n) % 2 ^ 32) else .error .shiftCount

/-- Right shift of a `uint32_t` (`x >> n`): undefined for a count of 32 or more. -/
def shr32 (x n : Nat) : Except Undefined Nat :=
  if n < 32 then .ok (x >>> n) else .error .shiftCount

/-- Byte number `i` of a word, byte 0 being the least significant one. -/
def byteAt (x i : Nat) : Nat := x / 256 ^ i % 256

/-- Modelled from the spec: `__builtin_bswap32` is a compiler builtin, its body is
not part of hex64hash.c.  Section 4 (arithmetic semantics) defines `byte_swap` as
the reversal of the byte order within the 32-bit word, bytes `[b0,b1,b2,b3]`
becoming `[b3,b2,b1,b0]`: byte 0 of the argument becomes the most significant
byte of the result. -/
def builtin_bswap32 (x : Nat) : Nat :=
  byteAt x 0 * 256 ^ 3 + byteAt x 1 * 256 ^ 2 + byteAt x 2 * 256 ^ 1 + byteAt x 3

/-! ## The buffer -/

/-- Read of `ctx[i]`: defined only inside the buffer. -/
def load : List Nat → Nat → Except Undefined Nat
  | [], _ => .error .outOfBounds
  | w :: _, 0 => .ok w
  | _ :: ws, i + 1 => load ws i

/-- Write `ctx[i] = v`: defined only inside the buffer. -/
def store : List Nat → Nat → Nat → Except Undefined (List Nat)
  | [], _, _ => .error .outOfBounds
  | _ :: ws, 0, v => .ok (v :: ws)
  | w :: ws, i + 1, v => (store ws i v).map (w :: ·)

/-- An 8-word state: exactly eight words, each a 32-bit unsigned value. -/
def IsState (ctx : List Nat) : Prop :=
  ctx.length = 8 ∧ ∀ w ∈ ctx, w < 2 ^ 32

instance (ctx : List Nat) : Decidable (IsState ctx) := by
  unfold IsState; infer_instance

/-! ## The program -/

/-- The function `Hex64Hash(uint32_t *ctx)` of hex64hash.c, statement by statement.
The result is the buffer as the function leaves it. -/
def Hex64Hash (ctx0 : List Nat) : Except Undefined (List Nat) := do
  let mut ctx := ctx0
  -- First quadrant processing
  let mut eax ← load ctx 0
  let mut ebx ← load ctx 1
  let mut ecx ← load ctx 2
  let mut edx ← load ctx 3

  eax := add32 eax ebx
  ecx := ecx ^^^ eax
  ecx := (← shl32 ecx 7) ||| (← shr32 ecx (32 - 7))
  edx := add32 edx ecx
  ebx := ebx ^^^ edx
  ebx := (← shr32 ebx 11) ||| (← shl32 ebx (32 - 11))
  eax := add32 eax ebx
  ecx := ecx ^^^ eax
  ecx := (← shl32 ecx 13) ||| (← shr32 ecx (32 - 13))
  edx := add32 edx ecx
  ebx := ebx ^^^ edx
  ebx := (← shr32 ebx 17) ||| (← shl32 ebx (32 - 17))

  ctx ← store ctx 0 eax
  ctx ← store ctx 1 ebx
  ctx ← store ctx 2 ecx
  ctx ← store ctx 3 edx

  -- Second quadrant processing
  eax ← load ctx 4
  ebx ← load ctx 5
  ecx ← load ctx 6
  edx ← load ctx 7

  let mut edi := add32 eax ebx
  edi := edi ^^^ ecx
  edi := (← shl32 edi 5) ||| (← shr32 edi (32 - 5))
  edx := add32 edx edi
  eax := eax ^^^ edx
  ebx := builtin_bswap32 ebx
  ecx := add32 ecx ebx
  edx := edx ^^^ ecx
  edx := (← shr32 edx 9) ||| (← shl32 edx (32 - 9))

  ctx ← store ctx 4 eax
  ctx ← store ctx 5 ebx
  ctx ← store ctx 6 ecx
  ctx ← store ctx 7 edx

  -- Cross-mixing
  ctx ← store ctx 3 ((← load ctx 3) ^^^ eax)
  ctx ← store ctx 7 ((← load ctx 7) ^^^ ebx)
  ctx ← store ctx 1 (add32 (← load ctx 1) ecx)
  ctx ← store ctx 5 (sub32 (← load ctx 5) edx)
  return ctx

/-! ## The working values of the two quadrants -/

/-- Four working values `a, b, c, d` (the registers `eax, ebx, ecx, edx`). -/
structure Quad where
  a : Nat
  b : Nat
  c : Nat
  d : Nat
deriving DecidableEq, Repr

/-- The expression `(x << n) | (x >> (32 - n))` on a `uint32_t`, for `0 < n < 32`. -/
def shlOrShr (x n : Nat) : Nat := (x <<< n) % 2 ^ 32 ||| x >>> (32 - n)

/-- The expression `(x >> n) | (x << (32 - n))` on a `uint32_t`, for `0 < n < 32`. -/
def shrOrShl (x n : Nat) : Nat := x >>> n ||| (x <<< (32 - n)) % 2 ^ 32

/-- The values of `eax, ebx, ecx, edx` after lines 12-23, from the words loaded
in lines 7-10. -/
def quadrantA (w0 w1 w2 w3 : Nat) : Quad :=
  let eax := add32 w0 w1
  let ecx := w2 ^^^ eax
  let ecx := shlOrShr ecx 7
  let edx := add32 w3 ecx
  let ebx := w1 ^^^ edx
  let ebx := shrOrShl ebx 11
  let eax := add32 eax ebx
  let ecx := ecx ^^^ eax
  let ecx := shlOrShr ecx 13
  let edx := add32 edx ecx
  let ebx := ebx ^^^ edx
  let ebx := shrOrShl ebx 17
  ⟨eax, ebx, ecx, edx⟩

/-- The values of `eax, ebx, ecx, edx` after lines 36-44, from the words loaded
in lines 31-34. -/
def quadrantB (w4 w5 w6 w7 : Nat) : Quad :=
  let edi := add32 w4 w5
  let edi := edi ^^^ w6
  let edi := shlOrShr edi 5
  let edx := add32 w7 edi
  let eax := w4 ^^^ edx
  let ebx := builtin_bswap32 w5
  let ecx := add32 w6 ebx
  let edx := edx ^^^ ecx
  let edx := shrOrShl edx 9
  ⟨eax, ebx, ecx, edx⟩

/-- Word number `i` of the buffer a run leaves behind, when the run is defined
and the buffer has such a word. -/
def outWord (r : Except Undefined (List Nat)) (i : Nat) : Option Nat :=
  match r with
  | .ok out => out[i]?
  | .error _ => none

/-! ## The reference operations of section 4 -/

/-- The number whose bits `0 .. k-1` are `f 0 .. f (k-1)` and whose other bits
are clear. -/
def ofBits (f : Nat → Bool) : Nat → Nat
  | 0 => 0
  | k + 1 => 2 ^ k * (f k).toNat + ofBits f k

/-- Rotation of a 32-bit word to the left by `n`: bit `i` of the argument moves to
bit `(i + n) mod 32`, so bit `i` of the result is bit `(i - n) mod 32` of the
argument. -/
def rotate_left (x n : Nat) : Nat :=
  ofBits (fun i => x.testBit ((i + (32 - n % 32)) % 32)) 32

/-- Rotation of a 32-bit word to the right by `n`: bit `i` of the result is bit
`(i + n) mod 32` of the argument. -/
def rotate_right (x n : Nat) : Nat :=
  ofBits (fun i => x.testBit ((i + n) % 32)) 32

/-- The four bytes of a 32-bit word, `[b0, b1, b2, b3]`, least significant first. -/
def toBytes (x : Nat) : List Nat := [byteAt x 0, byteAt x 1, byteAt x 2, byteAt x 3]

/-- The word with the given bytes, least significant first. -/
def ofBytes : List Nat → Nat
  | [] => 0
  | b :: bs => b + 256 * ofBytes bs

/-- The `byte_swap` of section 4: bytes `[b0,b1,b2,b3]` become `[b3,b2,b1,b0]`. -/
def byte_swap (x : Nat) : Nat := ofBytes (toBytes x).reverse

/-- Wraparound addition of section 4: addition modulo `2 ^ 32`. -/
def wadd (x y : Nat) : Nat := (x + y) % 2 ^ 32

/-- Wraparound subtraction of section 4: subtraction modulo `2 ^ 32`, computed
over the integers. -/
def wsub (x y : Nat) : Nat := (((x : Int) - (y : Int)) % 2 ^ 32).toNat

/-- Stage A of section 4.1, steps 1 to 12, on the input words `w0..w3`. -/
def stageA (w0 w1 w2 w3 : Nat) : Quad :=
  let a := w0
  let b := w1
  let c := w2
  let d := w3
  let a := wadd a b
  let c := c ^^^ a
  let c := rotate_left c 7
  let d := wadd d c
  let b := b ^^^ d
  let b := rotate_right b 11
  let a := wadd a b
  let c := c ^^^ a
  let c := rotate_left c 13
  let d := wadd d c
  let b := b ^^^ d
  let b := rotate_right b 17
  ⟨a, b, c, d⟩

/-- Stage B of section 4.1, steps 1 to 9, on the input words `w4..w7`. -/
def stageB (w4 w5 w6 w7 : Nat) : Quad :=
  let a := w4
  let b := w5
  let c := w6
  let d := w7
  let t := wadd a b
  let t := t ^^^ c
  let t := rotate_left t 5
  let d := wadd d t
  let a := a ^^^ d
  let b := byte_swap b
  let c := wadd c b
  let d := d ^^^ c
  let d := rotate_right d 9
  ⟨a, b, c, d⟩

/-- The reference `mix` of section 4.1: Stage A writes words 0-3, Stage B writes
words 4-7, Stage C cross-mixes the final working values of Stage B into words
3, 7, 1 and 5. -/
def mix (state : List Nat) : List Nat :=
  let A := stageA (state.getD 0 0) (state.getD 1 0) (state.getD 2 0) (state.getD 3 0)
  let B := stageB (state.getD 4 0) (state.getD 5 0) (state.getD 6 0) (state.getD 7 0)
  let o0 := A.a
  let o1 := A.b
  let o2 := A.c
  let o3 := A.d
  let o4 := B.a
  let o5 := B.b
  let o6 := B.c
  let o7 := B.d
  let o3 := o3 ^^^ B.a
  let o7 := o7 ^^^ B.b
  let o1 := wadd o1 B.c
  let o5 := wsub o5 B.d
  [o0, o1, o2, o3, o4, o5, o6, o7]

/-- Stage A undone: the twelve steps of Stage A inverted, last step first. -/
def stageA_inv (q : Quad) : Quad :=
  let a := q.a
  let b := q.b
  let c := q.c
  let d := q.d
  let b := rotate_left b 17
  let b := b ^^^ d
  let d := wsub d c
  let c := rotate_right c 13
  let c := c ^^^ a
  let a := wsub a b
  let b := rotate_left b 11
  let b := b ^^^ d
  let d := wsub d c
  let c := rotate_right c 7
  let c := c ^^^ a
  let a := wsub a b
  ⟨a, b, c, d⟩

/-- Stage B undone: the nine steps of Stage B inverted, last step first; the
scratch value `t` is recomputed from the recovered `a`, `b`, `c`. -/
def stageB_inv (q : Quad) : Quad :=
  let a := q.a
  let b := q.b
  let c := q.c
  let d := q.d
  let d := rotate_left d 9
  let d := d ^^^ c
  let c := wsub c b
  let b := byte_swap b
  let a := a ^^^ d
  let t := wadd a b
  let t := t ^^^ c
  let t := rotate_left t 5
  let d := wsub d t
  ⟨a, b, c, d⟩

/-! ## The shift-and-or expressions of the program -/

/-- The expression `(x << n) | (x >> (32 - n))` as lines 14, 20 and 38 evaluate it,
with the two shifts checked. -/
def shlOrShrExpr (x n : Nat) : Except Undefined Nat := do
  return (← shl32 x n) ||| (← shr32 x (32 - n))

/-- The expression `(x >> n) | (x << (32 - n))` as lines 17, 23 and 44 evaluate it,
with the two shifts checked. -/
def shrOrShlExpr (x n : Nat) : Except Undefined Nat := do
  return (← shr32 x n) ||| (← shl32 x (32 - n))

/-- The shift counts of the program, in the order of lines 14, 17, 20, 23, 38, 44. -/
def shiftCounts : List Nat :=
  [7, 32 - 7, 11, 32 - 11, 13, 32 - 13, 17, 32 - 17, 5, 32 - 5, 9, 32 - 9]

/-! ## The cross-mixing statements in another order -/

/-- The four cross-mixing statements of lines 52-55. -/
inductive CrossOp where
  | xor3
  | xor7
  | add1
  | sub5
deriving DecidableEq, Repr

/-- One cross-mixing statement, run on the buffer with the registers as the second
quadrant left them. -/
def crossMix (eax ebx ecx edx : Nat) (ctx : List Nat) : CrossOp → Except Undefined (List Nat)
  | .xor3 => do store ctx 3 ((← load ctx 3) ^^^ eax)
  | .xor7 => do store ctx 7 ((← load ctx 7) ^^^ ebx)
  | .add1 => do store ctx 1 (add32 (← load ctx 1) ecx)
  | .sub5 => do store ctx 5 (sub32 (← load ctx 5) edx)

/-- The order in which hex64hash.c runs the cross-mixing statements. -/
def sourceOrder : List CrossOp := [.xor3, .xor7, .add1, .sub5]

/-- The variant of `Hex64Hash` that runs lines 7-49 as they are and then the
cross-mixing statements in the order given. -/
def Hex64HashReordered (order : List CrossOp) (ctx0 : List Nat) :
    Except Undefined (List Nat) := do
  let mut ctx := ctx0
  -- First quadrant processing
  let mut eax ← load ctx 0
  let mut ebx ← load ctx 1
  let mut ecx ← load ctx 2
  let mut edx ← load ctx 3

  eax := add32 eax ebx
  ecx := ecx ^^^ eax
  ecx := (← shl32 ecx 7) ||| (← shr32 ecx (32 - 7))
  edx := add32 edx ecx
  ebx := ebx ^^^ edx
  ebx := (← shr32 ebx 11) ||| (← shl32 ebx (32 - 11))
  eax := add32 eax ebx
  ecx := ecx ^^^ eax
  ecx := (← shl32 ecx 13) ||| (← shr32 ecx (32 - 13))
  edx := add32 edx ecx
  ebx := ebx ^^^ edx
  ebx := (← shr32 ebx 17) ||| (← shl32 ebx (32 - 17))

  ctx ← store ctx 0 eax
  ctx ← store ctx 1 ebx
  ctx ← store ctx 2 ecx
  ctx ← store ctx 3 edx

  -- Second quadrant processing
  eax ← load ctx 4
  ebx ← load ctx 5
  ecx ← load ctx 6
  edx ← load ctx 7

  let mut edi := add32 eax ebx
  edi := edi ^^^ ecx
  edi := (← shl32 edi 5) ||| (← shr32 edi (32 - 5))
  edx := add32 edx edi
  eax := eax ^^^ edx
  ebx := builtin_bswap32 ebx
  ecx := add32 ecx ebx
  edx := edx ^^^ ecx
  edx := (← shr32 edx 9) ||| (← shl32 edx (32 - 9))

  ctx ← store ctx 4 eax
  ctx ← store ctx 5 ebx
  ctx ← store ctx 6 ecx
  ctx ← store ctx 7 edx

  -- Cross-mixing, in the order given
  order.foldlM (fun ctx op => crossMix eax ebx ecx edx ctx op) ctx

/-! ## The program with the prior contents of its locals made explicit -/

/-- The contents of the five locals `eax, ebx, ecx, edx, edi` of line 4. -/
structure Locals where
  eax : Nat
  ebx : Nat
  ecx : Nat
  edx : Nat
  edi : Nat
deriving DecidableEq, Repr

/-- The function `Hex64Hash` run with its locals holding `prior` on entry: line 4
declares the five locals without initialising them, so on entry they hold whatever
was left in their storage, for instance by an earlier call.  The buffer and these
five locals are all the variables of hex64hash.c; it has no static or global one.
The result is the buffer and the locals as the function leaves them. -/
def Hex64HashFrom (prior : Locals) (ctx0 : List Nat) :
    Except Undefined (List Nat × Locals) := do
  let mut ctx := ctx0
  let mut eax := prior.eax
  let mut ebx := prior.ebx
  let mut ecx := prior.ecx
  let mut edx := prior.edx
  let mut edi := prior.edi

  -- First quadrant processing
  eax ← load ctx 0
  ebx ← load ctx 1
  ecx ← load ctx 2
  edx ← load ctx 3

  eax := add32 eax ebx
  ecx := ecx ^^^ eax
  ecx := (← shl32 ecx 7) ||| (← shr32 ecx (32 - 7))
  edx := add32 edx ecx
  ebx := ebx ^^^ edx
  ebx := (← shr32 ebx 11) ||| (← shl32 ebx (32 - 11))
  eax := add32 eax ebx
  ecx := ecx ^^^ eax
  ecx := (← shl32 ecx 13) ||| (← shr32 ecx (32 - 13))
  edx := add32 edx ecx
  ebx := ebx ^^^ edx
  ebx := (← shr32 ebx 17) ||| (← shl32 ebx (32 - 17))

  ctx ← store ctx 0 eax
  ctx ← store ctx 1 ebx
  ctx ← store ctx 2 ecx
  ctx ← store ctx 3 edx

  -- Second quadrant processing
  eax ← load ctx 4
  ebx ← load ctx 5
  ecx ← load ctx 6
  edx ← load ctx 7

  edi := add32 eax ebx
  edi := edi ^^^ ecx
  edi := (← shl32 edi 5) ||| (← shr32 edi (32 - 5))
  edx := add32 edx edi
  eax := eax ^^^ edx
  ebx := builtin_bswap32 ebx
  ecx := add32 ecx ebx
  edx := edx ^^^ ecx
  edx := (← shr32 edx 9) ||| (← shl32 edx (32 - 9))

  ctx ← store ctx 4 eax
  ctx ← store ctx 5 ebx
  ctx ← store ctx 6 ecx
  ctx ← store ctx 7 edx

  -- Cross-mixing
  ctx ← store ctx 3 ((← load ctx 3) ^^^ eax)
  ctx ← store ctx 7 ((← load ctx 7) ^^^ ebx)
  ctx ← store ctx 1 (add32 (← load ctx 1) ecx)
  ctx ← store ctx 5 (sub32 (← load ctx 5) edx)
  return (ctx, ⟨eax, ebx, ecx, edx, edi⟩)

/-! ## The buffer operations are list indexing -/

/-- A read is defined exactly inside the buffer and yields the word stored there. -/
theorem load_eq_ok_iff (ctx : List Nat) (i v : Nat) :
    load ctx i = .ok v ↔ ctx[i]? = some v := by
  induction ctx generalizing i with
  | nil => simp [load]
  | cons w ws ih =>
    cases i with
    | zero => simp [load]
    | succ i => simpa [load] using ih i

/-- A write is defined exactly inside the buffer and replaces the word stored there. -/
theorem store_eq_ok_iff (ctx : List Nat) (i v : Nat) (out : List Nat) :
    store ctx i v = .ok out ↔ i < ctx.length ∧ out = ctx.set i v := by
  induction ctx generalizing i out with
  | nil => simp [store]
  | cons w ws ih =>
    cases i with
    | zero => simp [store, eq_comm]
    | succ i =>
      cases hs : store ws i v with
      | error e =>
        have := ih i
        simp only [hs] at this
        simp only [store, hs, Except.map, List.length_cons, List.set_cons_succ]
        constructor
        · intro h; cases h
        · rintro ⟨hlt, -⟩
          exact absurd ((this (ws.set i v)).mpr ⟨by omega, rfl⟩) (by simp)
      | ok r =>
        have h := (ih i r).mp hs
        simp only [store, hs, Except.map, List.length_cons, List.set_cons_succ,
          Except.ok.injEq]
        constructor
        · intro e; exact ⟨by omega, by rw [← e, h.2]⟩
        · rintro ⟨-, e⟩; rw [e, h.2]

/-! ## Machine-word lemmas -/

theorem add32_lt (x y : Nat) : add32 x y < 2 ^ 32 := Nat.mod_lt _ (by norm_num)

theorem sub32_lt (x y : Nat) : sub32 x y < 2 ^ 32 := Nat.mod_lt _ (by norm_num)

theorem testBit_of_lt_of_le {x i : Nat} (hx : x < 2 ^ 32) (hi : 32 ≤ i) :
    x.testBit i = false :=
  Nat.testBit_lt_two_pow (lt_of_lt_of_le hx (Nat.pow_le_pow_right (by norm_num) hi))

theorem ofBits_lt (f : Nat → Bool) (k : Nat) : ofBits f k < 2 ^ k := by
  induction k with
  | zero => simp [ofBits]
  | succ k ih =>
    have hb : (f k).toNat ≤ 1 := Bool.toNat_le _
    have : 2 ^ k * (f k).toNat ≤ 2 ^ k * 1 := Nat.mul_le_mul_left _ hb
    simp only [ofBits, pow_succ]
    omega

theorem testBit_ofBits (f : Nat → Bool) (k j : Nat) :
    (ofBits f k).testBit j = (decide (j < k) && f j) := by
  induction k with
  | zero => simp [ofBits]
  | succ k ih =>
    rw [ofBits, Nat.testBit_mul_pow_two_add _ (ofBits_lt f k), ih]
    by_cases h : j < k
    · have h1 : j < k + 1 := by omega
      simp [h, h1]
    · by_cases h2 : j = k
      · subst h2
        cases hf : f j <;> simp [Nat.testBit_bool_to_nat, hf]
      · have h3 : ¬ j < k + 1 := by omega
        have h4 : ¬ j - k = 0 := by omega
        simp [h, h3, h4, Nat.testBit_bool_to_nat]

theorem rotate_left_lt (x n : Nat) : rotate_left x n < 2 ^ 32 := ofBits_lt _ 32

theorem rotate_right_lt (x n : Nat) : rotate_right x n < 2 ^ 32 := ofBits_lt _ 32

theorem testBit_rotate_left (x n j : Nat) :
    (rotate_left x n).testBit j = (decide (j < 32) && x.testBit ((j + (32 - n % 32)) % 32)) :=
  testBit_ofBits _ 32 j

theorem testBit_rotate_right (x n j : Nat) :
    (rotate_right x n).testBit j = (decide (j < 32) && x.testBit ((j + n) % 32)) :=
  testBit_ofBits _ 32 j

/-- On a 32-bit word the expression `(x << n) | (x >> (32 - n))` is the rotation to
the left by `n`, for `0 < n < 32`. -/
theorem shlOrShr_eq_rotate_left {x n : Nat} (hx : x < 2 ^ 32) (h0 : 0 < n) (hn : n < 32) :
    shlOrShr x n = rotate_left x n := by
  apply Nat.eq_of_testBit_eq
  intro j
  rw [testBit_rotate_left, Nat.mod_eq_of_lt hn]
  unfold shlOrShr
  simp only [Nat.testBit_or, Nat.testBit_mod_two_pow, Nat.testBit_shiftLeft,
    Nat.testBit_shiftRight]
  by_cases hj : j < 32
  · by_cases hjn : n ≤ j
    · have e1 : (j + (32 - n)) % 32 = j - n := by omega
      have e2 : x.testBit (32 - n + j) = false := testBit_of_lt_of_le hx (by omega)
      simp [hj, hjn, e1, e2]
    · have e1 : (j + (32 - n)) % 32 = 32 - n + j := by omega
      simp [hj, hjn, e1]
  · have e2 : x.testBit (32 - n + j) = false := testBit_of_lt_of_le hx (by omega)
    simp [hj, e2]

/-- On a 32-bit word the expression `(x >> n) | (x << (32 - n))` is the rotation to
the right by `n`, for `0 < n < 32`. -/
theorem shrOrShl_eq_rotate_right {x n : Nat} (hx : x < 2 ^ 32) (h0 : 0 < n) (hn : n < 32) :
    shrOrShl x n = rotate_right x n := by
  apply Nat.eq_of_testBit_eq
  intro j
  rw [testBit_rotate_right]
  unfold shrOrShl
  simp only [Nat.testBit_or, Nat.testBit_mod_two_pow, Nat.testBit_shiftLeft,
    Nat.testBit_shiftRight]
  by_cases hj : j < 32
  · by_cases hjn : 32 - n ≤ j
    · have e1 : (j + n) % 32 = j - (32 - n) := by omega
      have e2 : x.testBit (n + j) = false := testBit_of_lt_of_le hx (by omega)
      simp [hj, hjn, e1, e2]
    · have e1 : (j + n) % 32 = n + j := by omega
      simp [hj, hjn, e1]
  · have e2 : x.testBit (n + j) = false := testBit_of_lt_of_le hx (by omega)
    simp [hj, e2]

theorem rotate_right_rotate_left {x : Nat} (hx : x < 2 ^ 32) (n : Nat) :
    rotate_right (rotate_left x n) n = x := by
  apply Nat.eq_of_testBit_eq
  intro j
  rw [testBit_rotate_right, testBit_rotate_left]
  by_cases hj : j < 32
  · have e1 : ((j + n) % 32 + (32 - n % 32)) % 32 = j := by omega
    have e2 : (j + n) % 32 < 32 := Nat.mod_lt _ (by norm_num)
    simp [hj, e1, e2]
  · simp [hj, testBit_of_lt_of_le hx (by omega : 32 ≤ j)]

theorem rotate_left_rotate_right {x : Nat} (hx : x < 2 ^ 32) (n : Nat) :
    rotate_left (rotate_right x n) n = x := by
  apply Nat.eq_of_testBit_eq
  intro j
  rw [testBit_rotate_left, testBit_rotate_right]
  by_cases hj : j < 32
  · have e1 : ((j + (32 - n % 32)) % 32 + n) % 32 = j := by omega
    have e2 : (j + (32 - n % 32)) % 32 < 32 := Nat.mod_lt _ (by norm_num)
    simp [hj, e1, e2]
  · simp [hj, testBit_of_lt_of_le hx (by omega : 32 ≤ j)]

theorem shlOrShr_lt {x n : Nat} (hx : x < 2 ^ 32) (h0 : 0 < n) (hn : n < 32) :
    shlOrShr x n < 2 ^ 32 := by
  rw [shlOrShr_eq_rotate_left hx h0 hn]; exact rotate_left_lt x n

theorem shrOrShl_lt {x n : Nat} (hx : x < 2 ^ 32) (h0 : 0 < n) (hn : n < 32) :
    shrOrShl x n < 2 ^ 32 := by
  rw [shrOrShl_eq_rotate_right hx h0 hn]; exact rotate_right_lt x n

theorem shlOrShr_inj {x y n : Nat} (hx : x < 2 ^ 32) (hy : y < 2 ^ 32) (h0 : 0 < n)
    (hn : n < 32) (h : shlOrShr x n = shlOrShr y n) : x = y := by
  rw [shlOrShr_eq_rotate_left hx h0 hn, shlOrShr_eq_rotate_left hy h0 hn] at h
  have := congrArg (fun r => rotate_right r n) h
  simpa [rotate_right_rotate_left hx, rotate_right_rotate_left hy] using this

theorem shrOrShl_inj {x y n : Nat} (hx : x < 2 ^ 32) (hy : y < 2 ^ 32) (h0 : 0 < n)
    (hn : n < 32) (h : shrOrShl x n = shrOrShl y n) : x = y := by
  rw [shrOrShl_eq_rotate_right hx h0 hn, shrOrShl_eq_rotate_right hy h0 hn] at h
  have := congrArg (fun r => rotate_left r n) h
  simpa [rotate_left_rotate_right hx, rotate_left_rotate_right hy] using this

theorem xor_lt {x y : Nat} (hx : x < 2 ^ 32) (hy : y < 2 ^ 32) : x ^^^ y < 2 ^ 32 :=
  Nat.xor_lt_two_pow hx hy

theorem add32_left_cancel {x y z : Nat} (hy : y < 2 ^ 32) (hz : z < 2 ^ 32)
    (h : add32 x y = add32 x z) : y = z := by
  unfold add32 at h; omega

theorem add32_right_cancel {x y z : Nat} (hx : x < 2 ^ 32) (hy : y < 2 ^ 32)
    (h : add32 x z = add32 y z) : x = y := by
  unfold add32 at h; omega

theorem xor_right_cancel {x y z : Nat} (h : x ^^^ z = y ^^^ z) : x = y :=
  Nat.xor_left_injective h

theorem xor_left_cancel {x y z : Nat} (h : x ^^^ y = x ^^^ z) : y = z :=
  Nat.xor_right_injective h

theorem byteAt_lt (x i : Nat) : byteAt x i < 256 := Nat.mod_lt _ (by norm_num)

theorem builtin_bswap32_lt (x : Nat) : builtin_bswap32 x < 2 ^ 32 := by
  have h0 := byteAt_lt x 0
  have h1 := byteAt_lt x 1
  have h2 := byteAt_lt x 2
  have h3 := byteAt_lt x 3
  unfold builtin_bswap32
  norm_num
  omega

theorem byte_swap_eq (x : Nat) : byte_swap x = builtin_bswap32 x := by
  simp [byte_swap, toBytes, ofBytes, builtin_bswap32]
  ring

theorem word_eq_bytes {x : Nat} (hx : x < 2 ^ 32) :
    x = byteAt x 0 + 256 * byteAt x 1 + 65536 * byteAt x 2 + 16777216 * byteAt x 3 := by
  have e1 : x / 65536 = x / 256 / 256 := by rw [Nat.div_div_eq_div_mul]
  have e2 : x / 16777216 = x / 256 / 256 / 256 := by
    rw [Nat.div_div_eq_div_mul, Nat.div_div_eq_div_mul]
  simp only [byteAt]
  norm_num at hx ⊢
  rw [e1, e2]
  omega

theorem builtin_bswap32_inj {x y : Nat} (hx : x < 2 ^ 32) (hy : y < 2 ^ 32)
    (h : builtin_bswap32 x = builtin_bswap32 y) : x = y := by
  have ex := word_eq_bytes hx
  have ey := word_eq_bytes hy
  have x0 := byteAt_lt x 0
  have x1 := byteAt_lt x 1
  have x2 := byteAt_lt x 2
  have x3 := byteAt_lt x 3
  have y0 := byteAt_lt y 0
  have y1 := byteAt_lt y 1
  have y2 := byteAt_lt y 2
  have y3 := byteAt_lt y 3
  unfold builtin_bswap32 at h
  norm_num at h
  have h3 : byteAt x 3 = byteAt y 3 := by omega
  have h2 : byteAt x 2 = byteAt y 2 := by omega
  have h1 : byteAt x 1 = byteAt y 1 := by omega
  have h0 : byteAt x 0 = byteAt y 0 := by omega
  rw [ex, ey, h0, h1, h2, h3]

/-- Byte `i` of the swapped word is byte `3 - i` of the argument. -/
theorem byteAt_builtin_bswap32 (x : Nat) :
    byteAt (builtin_bswap32 x) 0 = byteAt x 3 ∧ byteAt (builtin_bswap32 x) 1 = byteAt x 2 ∧
    byteAt (builtin_bswap32 x) 2 = byteAt x 1 ∧ byteAt (builtin_bswap32 x) 3 = byteAt x 0 := by
  have x0 := byteAt_lt x 0
  have x1 := byteAt_lt x 1
  have x2 := byteAt_lt x 2
  have x3 := byteAt_lt x 3
  unfold builtin_bswap32
  generalize byteAt x 0 = b0 at *
  generalize byteAt x 1 = b1 at *
  generalize byteAt x 2 = b2 at *
  generalize byteAt x 3 = b3 at *
  simp only [byteAt]
  norm_num
  omega

theorem wadd_eq (x y : Nat) : wadd x y = add32 x y := rfl

theorem wsub_eq (x y : Nat) : wsub x y = sub32 x y := by
  unfold wsub sub32
  norm_num
  omega

/-! ## The quadrants against the stages of section 4 -/

theorem quadrantA_eq_stageA {w0 w1 w2 w3 : Nat} (h1 : w1 < 2 ^ 32) (h2 : w2 < 2 ^ 32) :
    quadrantA w0 w1 w2 w3 = stageA w0 w1 w2 w3 := by
  have l7 : ∀ {x : Nat}, x < 2 ^ 32 → shlOrShr x 7 = rotate_left x 7 :=
    fun hx => shlOrShr_eq_rotate_left hx (by norm_num) (by norm_num)
  have l13 : ∀ {x : Nat}, x < 2 ^ 32 → shlOrShr x 13 = rotate_left x 13 :=
    fun hx => shlOrShr_eq_rotate_left hx (by norm_num) (by norm_num)
  have r11 : ∀ {x : Nat}, x < 2 ^ 32 → shrOrShl x 11 = rotate_right x 11 :=
    fun hx => shrOrShl_eq_rotate_right hx (by norm_num) (by norm_num)
  have r17 : ∀ {x : Nat}, x < 2 ^ 32 → shrOrShl x 17 = rotate_right x 17 :=
    fun hx => shrOrShl_eq_rotate_right hx (by norm_num) (by norm_num)
  simp only [quadrantA, stageA, wadd_eq, l7, l13, r11, r17, xor_lt, add32_lt, rotate_left_lt,
    rotate_right_lt, h1, h2]

theorem quadrantB_eq_stageB {w4 w5 w6 w7 : Nat} (h6 : w6 < 2 ^ 32) :
    quadrantB w4 w5 w6 w7 = stageB w4 w5 w6 w7 := by
  have l5 : ∀ {x : Nat}, x < 2 ^ 32 → shlOrShr x 5 = rotate_left x 5 :=
    fun hx => shlOrShr_eq_rotate_left hx (by norm_num) (by norm_num)
  have r9 : ∀ {x : Nat}, x < 2 ^ 32 → shrOrShl x 9 = rotate_right x 9 :=
    fun hx => shrOrShl_eq_rotate_right hx (by norm_num) (by norm_num)
  simp only [quadrantB, stageB, wadd_eq, byte_swap_eq, l5, r9, xor_lt, add32_lt, h6]

/-! ## The stages are invertible -/

theorem wadd_lt (x y : Nat) : wadd x y < 2 ^ 32 := add32_lt x y

theorem wsub_wadd_cancel {x : Nat} (hx : x < 2 ^ 32) (y : Nat) : wsub (wadd x y) y = x := by
  rw [wsub_eq]
  unfold wadd sub32
  norm_num at hx ⊢
  omega

theorem byte_swap_byte_swap {x : Nat} (hx : x < 2 ^ 32) : byte_swap (byte_swap x) = x := by
  rw [byte_swap_eq, byte_swap_eq]
  obtain ⟨e0, e1, e2, e3⟩ := byteAt_builtin_bswap32 x
  have ex := word_eq_bytes hx
  conv_lhs => rw [builtin_bswap32, e0, e1, e2, e3]
  omega

theorem stageA_inv_stageA {w0 w1 w2 w3 : Nat} (h0 : w0 < 2 ^ 32) (h1 : w1 < 2 ^ 32)
    (h2 : w2 < 2 ^ 32) (h3 : w3 < 2 ^ 32) :
    stageA_inv (stageA w0 w1 w2 w3) = ⟨w0, w1, w2, w3⟩ := by
  simp only [stageA, stageA_inv, rotate_left_rotate_right, rotate_right_rotate_left,
    Nat.xor_cancel_right, wsub_wadd_cancel, xor_lt, wadd_lt, rotate_left_lt, rotate_right_lt,
    h0, h1, h2, h3]

theorem stageB_inv_stageB {w5 w6 w7 : Nat} (w4 : Nat) (h5 : w5 < 2 ^ 32)
    (h6 : w6 < 2 ^ 32) (h7 : w7 < 2 ^ 32) :
    stageB_inv (stageB w4 w5 w6 w7) = ⟨w4, w5, w6, w7⟩ := by
  simp only [stageB, stageB_inv, rotate_left_rotate_right, rotate_right_rotate_left,
    Nat.xor_cancel_right, wsub_wadd_cancel, byte_swap_byte_swap, xor_lt, wadd_lt,
    rotate_left_lt, rotate_right_lt, h5, h6, h7]

theorem quadrantA_inj {w0 w1 w2 w3 v0 v1 v2 v3 : Nat}
    (h0 : w0 < 2 ^ 32) (h1 : w1 < 2 ^ 32) (h2 : w2 < 2 ^ 32) (h3 : w3 < 2 ^ 32)
    (g0 : v0 < 2 ^ 32) (g1 : v1 < 2 ^ 32) (g2 : v2 < 2 ^ 32) (g3 : v3 < 2 ^ 32)
    (h : quadrantA w0 w1 w2 w3 = quadrantA v0 v1 v2 v3) :
    w0 = v0 ∧ w1 = v1 ∧ w2 = v2 ∧ w3 = v3 := by
  rw [quadrantA_eq_stageA h1 h2, quadrantA_eq_stageA g1 g2] at h
  have e := congrArg stageA_inv h
  rw [stageA_inv_stageA h0 h1 h2 h3, stageA_inv_stageA g0 g1 g2 g3] at e
  simpa using e

theorem quadrantB_inj {w4 w5 w6 w7 v4 v5 v6 v7 : Nat}
    (h5 : w5 < 2 ^ 32) (h6 : w6 < 2 ^ 32) (h7 : w7 < 2 ^ 32)
    (g5 : v5 < 2 ^ 32) (g6 : v6 < 2 ^ 32) (g7 : v7 < 2 ^ 32)
    (h : quadrantB w4 w5 w6 w7 = quadrantB v4 v5 v6 v7) :
    w4 = v4 ∧ w5 = v5 ∧ w6 = v6 ∧ w7 = v7 := by
  rw [quadrantB_eq_stageB h6, quadrantB_eq_stageB g6] at h
  have e := congrArg stageB_inv h
  rw [stageB_inv_stageB w4 h5 h6 h7, stageB_inv_stageB v4 g5 g6 g7] at e
  simpa using e

/-- The four working values Stage A leaves are 32-bit words. -/
theorem stageA_lt (w0 w1 w2 w3 : Nat) :
    (stageA w0 w1 w2 w3).a < 2 ^ 32 ∧ (stageA w0 w1 w2 w3).b < 2 ^ 32 ∧
    (stageA w0 w1 w2 w3).c < 2 ^ 32 ∧ (stageA w0 w1 w2 w3).d < 2 ^ 32 :=
  ⟨wadd_lt _ _, rotate_right_lt _ _, rotate_left_lt _ _, wadd_lt _ _⟩

/-- The four working values Stage B leaves are 32-bit words. -/
theorem stageB_lt {w4 : Nat} (w5 w6 w7 : Nat) (h4 : w4 < 2 ^ 32) :
    (stageB w4 w5 w6 w7).a < 2 ^ 32 ∧ (stageB w4 w5 w6 w7).b < 2 ^ 32 ∧
    (stageB w4 w5 w6 w7).c < 2 ^ 32 ∧ (stageB w4 w5 w6 w7).d < 2 ^ 32 :=
  ⟨xor_lt h4 (wadd_lt _ _), by rw [stageB, byte_swap_eq]; exact builtin_bswap32_lt _,
    wadd_lt _ _, rotate_right_lt _ _⟩

/-! ## Evaluation of the program on a buffer of at least eight words -/

theorem Hex64Hash_cons (w0 w1 w2 w3 w4 w5 w6 w7 : Nat) (rest : List Nat) :
    Hex64Hash (w0 :: w1 :: w2 :: w3 :: w4 :: w5 :: w6 :: w7 :: rest) =
      .ok ((quadrantA w0 w1 w2 w3).a ::
            add32 (quadrantA w0 w1 w2 w3).b (quadrantB w4 w5 w6 w7).c ::
            (quadrantA w0 w1 w2 w3).c ::
            ((quadrantA w0 w1 w2 w3).d ^^^ (quadrantB w4 w5 w6 w7).a) ::
            (quadrantB w4 w5 w6 w7).a ::
            sub32 (quadrantB w4 w5 w6 w7).b (quadrantB w4 w5 w6 w7).d ::
            (quadrantB w4 w5 w6 w7).c ::
            ((quadrantB w4 w5 w6 w7).d ^^^ (quadrantB w4 w5 w6 w7).b) :: rest) := by
  rfl

/-! ## States -/

theorem isState_words {w0 w1 w2 w3 w4 w5 w6 w7 : Nat} :
    IsState [w0, w1, w2, w3, w4, w5, w6, w7] ↔
      w0 < 2 ^ 32 ∧ w1 < 2 ^ 32 ∧ w2 < 2 ^ 32 ∧ w3 < 2 ^ 32 ∧
      w4 < 2 ^ 32 ∧ w5 < 2 ^ 32 ∧ w6 < 2 ^ 32 ∧ w7 < 2 ^ 32 := by
  simp [IsState]

theorem exists_words {ctx : List Nat} (h : IsState ctx) :
    ∃ w0 w1 w2 w3 w4 w5 w6 w7, ctx = [w0, w1, w2, w3, w4, w5, w6, w7] ∧
      w0 < 2 ^ 32 ∧ w1 < 2 ^ 32 ∧ w2 < 2 ^ 32 ∧ w3 < 2 ^ 32 ∧
      w4 < 2 ^ 32 ∧ w5 < 2 ^ 32 ∧ w6 < 2 ^ 32 ∧ w7 < 2 ^ 32 := by
  have hl := h.1
  rcases ctx with _ | ⟨w0, _ | ⟨w1, _ | ⟨w2, _ | ⟨w3, _ | ⟨w4, _ | ⟨w5, _ | ⟨w6, _ |
    ⟨w7, _ | ⟨w8, rest⟩⟩⟩⟩⟩⟩⟩⟩⟩ <;>
    simp only [List.length_cons, List.length_nil] at hl <;> try omega
  exact ⟨w0, w1, w2, w3, w4, w5, w6, w7, rfl, isState_words.mp h⟩

/-- The closed form of a run on an 8-word state, over the stages of section 4. -/
theorem Hex64Hash_words {w0 w1 w2 w3 w4 w5 w6 w7 : Nat}
    (h : IsState [w0, w1, w2, w3, w4, w5, w6, w7]) :
    Hex64Hash [w0, w1, w2, w3, w4, w5, w6, w7] =
      .ok [(stageA w0 w1 w2 w3).a,
           wadd (stageA w0 w1 w2 w3).b (stageB w4 w5 w6 w7).c,
           (stageA w0 w1 w2 w3).c,
           (stageA w0 w1 w2 w3).d ^^^ (stageB w4 w5 w6 w7).a,
           (stageB w4 w5 w6 w7).a,
           wsub (stageB w4 w5 w6 w7).b (stageB w4 w5 w6 w7).d,
           (stageB w4 w5 w6 w7).c,
           (stageB w4 w5 w6 w7).d ^^^ (stageB w4 w5 w6 w7).b] := by
  obtain ⟨_, h1, h2, _, _, _, h6, _⟩ := isState_words.mp h
  rw [Hex64Hash_cons, quadrantA_eq_stageA h1 h2, quadrantB_eq_stageB h6, wsub_eq, wadd_eq]

/-- Words 4..7 of two buffers that hold the same words there. -/
theorem outWord_second_half (a0 a1 a2 a3 b0 b1 b2 b3 o4 o5 o6 o7 i : Nat)
    (h4 : 4 ≤ i) (h8 : i < 8) :
    ∃ o, outWord (.ok [a0, a1, a2, a3, o4, o5, o6, o7]) i = some o ∧
         outWord (.ok [b0, b1, b2, b3, o4, o5, o6, o7]) i = some o := by
  obtain rfl | rfl | rfl | rfl : i = 4 ∨ i = 5 ∨ i = 6 ∨ i = 7 := by omega
  · exact ⟨_, rfl, rfl⟩
  · exact ⟨_, rfl, rfl⟩
  · exact ⟨_, rfl, rfl⟩
  · exact ⟨_, rfl, rfl⟩

/-! ## The cross-mixing statements commute -/

theorem Hex64HashReordered_cons (order : List CrossOp) (w0 w1 w2 w3 w4 w5 w6 w7 : Nat)
    (rest : List Nat) :
    Hex64HashReordered order (w0 :: w1 :: w2 :: w3 :: w4 :: w5 :: w6 :: w7 :: rest) =
      order.foldlM
        (fun ctx op => crossMix (quadrantB w4 w5 w6 w7).a (quadrantB w4 w5 w6 w7).b
          (quadrantB w4 w5 w6 w7).c (quadrantB w4 w5 w6 w7).d ctx op)
        ((quadrantA w0 w1 w2 w3).a :: (quadrantA w0 w1 w2 w3).b :: (quadrantA w0 w1 w2 w3).c ::
          (quadrantA w0 w1 w2 w3).d :: (quadrantB w4 w5 w6 w7).a :: (quadrantB w4 w5 w6 w7).b ::
          (quadrantB w4 w5 w6 w7).c :: (quadrantB w4 w5 w6 w7).d :: rest) := by
  rfl

/-- Run in any order, the four cross-mixing statements leave the same buffer. -/
theorem crossMix_perm (eax ebx ecx edx a0 a1 a2 a3 b0 b1 b2 b3 : Nat) (rest : List Nat)
    (order : List CrossOp) (hp : order.Perm sourceOrder) :
    order.foldlM (fun ctx op => crossMix eax ebx ecx edx ctx op)
        (a0 :: a1 :: a2 :: a3 :: b0 :: b1 :: b2 :: b3 :: rest) =
      .ok (a0 :: add32 a1 ecx :: a2 :: (a3 ^^^ eax) :: b0 :: sub32 b1 edx :: b2 ::
        (b3 ^^^ ebx) :: rest) := by
  have hl : order.length = 4 := hp.length_eq
  rcases order with _ | ⟨p, _ | ⟨q, _ | ⟨r, _ | ⟨s, _ | ⟨t, more⟩⟩⟩⟩⟩ <;>
    simp only [List.length_cons, List.length_nil] at hl <;> try omega
  cases p <;> cases q <;> cases r <;> cases s <;>
    first
    | exact absurd hp (by decide)
    | rfl

theorem quad_ext {p q : Quad} (ha : p.a = q.a) (hb : p.b = q.b) (hc : p.c = q.c)
    (hd : p.d = q.d) : p = q := by
  cases p; cases q; simp_all

/-! ## What a collision of two states forces -/

theorem quadrantA_lt (w0 : Nat) {w1 w2 : Nat} (w3 : Nat) (h1 : w1 < 2 ^ 32)
    (h2 : w2 < 2 ^ 32) :
    (quadrantA w0 w1 w2 w3).a < 2 ^ 32 ∧ (quadrantA w0 w1 w2 w3).b < 2 ^ 32 ∧
    (quadrantA w0 w1 w2 w3).c < 2 ^ 32 ∧ (quadrantA w0 w1 w2 w3).d < 2 ^ 32 := by
  rw [quadrantA_eq_stageA h1 h2]; exact stageA_lt w0 w1 w2 w3

/-- Two states with the same output have the same words 0..3, and the same words
4..7 as well when they have the same word 5. -/
theorem words_eq_of_Hex64Hash_eq {w0 w1 w2 w3 w4 w5 w6 w7 v0 v1 v2 v3 v4 v5 v6 v7 : Nat}
    (hS : IsState [w0, w1, w2, w3, w4, w5, w6, w7])
    (hT : IsState [v0, v1, v2, v3, v4, v5, v6, v7])
    (h : Hex64Hash [w0, w1, w2, w3, w4, w5, w6, w7] =
      Hex64Hash [v0, v1, v2, v3, v4, v5, v6, v7]) :
    (w0 = v0 ∧ w1 = v1 ∧ w2 = v2 ∧ w3 = v3) ∧
      (w5 = v5 → w4 = v4 ∧ w6 = v6 ∧ w7 = v7) := by
  obtain ⟨h0, h1, h2, h3, -, h5, h6, h7⟩ := isState_words.mp hS
  obtain ⟨g0, g1, g2, g3, -, g5, g6, g7⟩ := isState_words.mp hT
  rw [Hex64Hash_cons, Hex64Hash_cons] at h
  simp only [Except.ok.injEq, List.cons.injEq, and_true] at h
  obtain ⟨e0, e1, e2, e3, e4, -, e6, e7⟩ := h
  obtain ⟨-, ab, -, -⟩ := quadrantA_lt w0 w3 h1 h2
  obtain ⟨-, ab', -, -⟩ := quadrantA_lt v0 v3 g1 g2
  rw [e6] at e1
  rw [e4] at e3
  have hA : quadrantA w0 w1 w2 w3 = quadrantA v0 v1 v2 v3 :=
    quad_ext e0 (add32_right_cancel ab ab' e1) e2 (xor_right_cancel e3)
  refine ⟨quadrantA_inj h0 h1 h2 h3 g0 g1 g2 g3 hA, fun h55 => ?_⟩
  have eb : (quadrantB w4 w5 w6 w7).b = (quadrantB v4 v5 v6 v7).b := by
    show builtin_bswap32 w5 = builtin_bswap32 v5
    rw [h55]
  rw [eb] at e7
  have hB : quadrantB w4 w5 w6 w7 = quadrantB v4 v5 v6 v7 :=
    quad_ext e4 eb e6 (xor_right_cancel e7)
  obtain ⟨q4, -, q6, q7⟩ := quadrantB_inj h5 h6 h7 g5 g6 g7 hB
  exact ⟨q4, q6, q7⟩

/-! ## The buffer a run leaves -/

/-- What a run leaves in the first eight words is again a state. -/
theorem isState_out {w0 w1 w2 w3 w4 w5 w6 w7 : Nat}
    (h : IsState [w0, w1, w2, w3, w4, w5, w6, w7]) :
    IsState [(quadrantA w0 w1 w2 w3).a,
             add32 (quadrantA w0 w1 w2 w3).b (quadrantB w4 w5 w6 w7).c,
             (quadrantA w0 w1 w2 w3).c,
             (quadrantA w0 w1 w2 w3).d ^^^ (quadrantB w4 w5 w6 w7).a,
             (quadrantB w4 w5 w6 w7).a,
             sub32 (quadrantB w4 w5 w6 w7).b (quadrantB w4 w5 w6 w7).d,
             (quadrantB w4 w5 w6 w7).c,
             (quadrantB w4 w5 w6 w7).d ^^^ (quadrantB w4 w5 w6 w7).b] := by
  obtain ⟨-, h1, h2, -, h4, -, h6, -⟩ := isState_words.mp h
  obtain ⟨a1, -, a3, a4⟩ := quadrantA_lt w0 w3 h1 h2
  have hb := stageB_lt w5 w6 w7 h4
  rw [← quadrantB_eq_stageB h6] at hb
  obtain ⟨b1, b2, b3, b4⟩ := hb
  rw [isState_words]
  exact ⟨a1, add32_lt _ _, a3, xor_lt a4 b1, b1, sub32_lt _ _, b3, xor_lt b4 b2⟩

/-- Two buffers with the same words from index 8 on have the same length and the
same words there. -/
theorem frame_tail (a0 a1 a2 a3 a4 a5 a6 a7 b0 b1 b2 b3 b4 b5 b6 b7 : Nat)
    (rest : List Nat) :
    ([a0, a1, a2, a3, a4, a5, a6, a7] ++ rest).length =
      ([b0, b1, b2, b3, b4, b5, b6, b7] ++ rest).length ∧
    ∀ i, 8 ≤ i → ([a0, a1, a2, a3, a4, a5, a6, a7] ++ rest)[i]? =
      ([b0, b1, b2, b3, b4, b5, b6, b7] ++ rest)[i]? := by
  refine ⟨by simp, fun i hi => ?_⟩
  rw [List.getElem?_append_right (by simpa using hi),
    List.getElem?_append_right (by simpa using hi)]
  simp

/-- Buffers whose runs leave the same words 0..3 have equal words there. -/
theorem first_half_eq_of_outWord (a0 a1 a2 a3 b0 b1 b2 b3 : Nat) (r s : List Nat)
    (h : ∀ i, i < 4 → outWord (.ok (a0 :: a1 :: a2 :: a3 :: r)) i =
      outWord (.ok (b0 :: b1 :: b2 :: b3 :: s)) i) :
    a0 = b0 ∧ a1 = b1 ∧ a2 = b2 ∧ a3 = b3 := by
  have e0 := h 0 (by norm_num)
  have e1 := h 1 (by norm_num)
  have e2 := h 2 (by norm_num)
  have e3 := h 3 (by norm_num)
  simp only [outWord, List.getElem?_cons_zero, List.getElem?_cons_succ, Option.some.injEq]
    at e0 e1 e2 e3
  exact ⟨e0, e1, e2, e3⟩

/-! ## The prior contents of the locals are never read -/

/-- A run from any prior contents of the locals: the buffer it leaves is the one
`Hex64Hash` leaves, and the locals it leaves are those of the second quadrant. -/
theorem Hex64HashFrom_cons (prior : Locals) (w0 w1 w2 w3 w4 w5 w6 w7 : Nat)
    (rest : List Nat) :
    Hex64HashFrom prior (w0 :: w1 :: w2 :: w3 :: w4 :: w5 :: w6 :: w7 :: rest) =
      .ok ((quadrantA w0 w1 w2 w3).a ::
            add32 (quadrantA w0 w1 w2 w3).b (quadrantB w4 w5 w6 w7).c ::
            (quadrantA w0 w1 w2 w3).c ::
            ((quadrantA w0 w1 w2 w3).d ^^^ (quadrantB w4 w5 w6 w7).a) ::
            (quadrantB w4 w5 w6 w7).a ::
            sub32 (quadrantB w4 w5 w6 w7).b (quadrantB w4 w5 w6 w7).d ::
            (quadrantB w4 w5 w6 w7).c ::
            ((quadrantB w4 w5 w6 w7).d ^^^ (quadrantB w4 w5 w6 w7).b) :: rest,
          ⟨(quadrantB w4 w5 w6 w7).a, (quadrantB w4 w5 w6 w7).b, (quadrantB w4 w5 w6 w7).c,
            (quadrantB w4 w5 w6 w7).d, shlOrShr (add32 w4 w5 ^^^ w6) 5⟩) := by
  rfl

/-! ## The claims -/

/-- C1: on every 8-word state of 32-bit words `Hex64Hash` is defined and leaves
exactly the state the reference `mix` of section 4 computes: Stage A on words 0-3,
Stage B on words 4-7, then the Stage C cross-mix into words 3, 7, 1 and 5, with the
true 32-bit rotations, the byte reversal and arithmetic modulo `2 ^ 32`. -/
theorem Hex64Hash_eq_mix (ctx : List Nat) (h : IsState ctx) :
    Hex64Hash ctx = .ok (mix ctx) := by
  obtain ⟨w0, w1, w2, w3, w4, w5, w6, w7, rfl, -⟩ := exists_words h
  rw [Hex64Hash_words h]
  rfl

theorem Hex64Hash_eq_mix_witness :
    IsState [1, 2, 3, 4, 5, 6, 7, 8] ∧
      Hex64Hash [1, 2, 3, 4, 5, 6, 7, 8] = .ok (mix [1, 2, 3, 4, 5, 6, 7, 8]) :=
  ⟨by decide, Hex64Hash_eq_mix [1, 2, 3, 4, 5, 6, 7, 8] (by decide)⟩

/-- C2: on every state the run is defined and the cross-mixed words are built from
the values the first quadrant left in `eax..edx` (Stage A) and the final values of
the second quadrant (Stage B) only: word 3 is Stage A `d` XOR Stage B `a`, word 7 is
Stage B `d` XOR Stage B `b`, word 1 is Stage A `b` plus Stage B `c` modulo `2 ^ 32`,
word 5 is Stage B `b` minus Stage B `d` modulo `2 ^ 32`; words 0, 2, 4, 6 are
Stage A `a`, Stage A `c`, Stage B `a`, Stage B `c` as stored. -/
theorem Hex64Hash_cross_mix (w0 w1 w2 w3 w4 w5 w6 w7 : Nat)
    (h : IsState [w0, w1, w2, w3, w4, w5, w6, w7]) :
    Hex64Hash [w0, w1, w2, w3, w4, w5, w6, w7] =
      .ok [(quadrantA w0 w1 w2 w3).a,
           ((quadrantA w0 w1 w2 w3).b + (quadrantB w4 w5 w6 w7).c) % 2 ^ 32,
           (quadrantA w0 w1 w2 w3).c,
           (quadrantA w0 w1 w2 w3).d ^^^ (quadrantB w4 w5 w6 w7).a,
           (quadrantB w4 w5 w6 w7).a,
           ((((quadrantB w4 w5 w6 w7).b : Int) - ((quadrantB w4 w5 w6 w7).d : Int)) % 2 ^ 32).toNat,
           (quadrantB w4 w5 w6 w7).c,
           (quadrantB w4 w5 w6 w7).d ^^^ (quadrantB w4 w5 w6 w7).b] := by
  have _ := h
  rw [Hex64Hash_cons]
  have e := wsub_eq (quadrantB w4 w5 w6 w7).b (quadrantB w4 w5 w6 w7).d
  unfold wsub at e
  rw [e]
  rfl

theorem Hex64Hash_cross_mix_witness :
    IsState [1, 2, 3, 4, 5, 6, 7, 8] ∧
      Hex64Hash [1, 2, 3, 4, 5, 6, 7, 8] =
        .ok [(quadrantA 1 2 3 4).a,
             ((quadrantA 1 2 3 4).b + (quadrantB 5 6 7 8).c) % 2 ^ 32,
             (quadrantA 1 2 3 4).c,
             (quadrantA 1 2 3 4).d ^^^ (quadrantB 5 6 7 8).a,
             (quadrantB 5 6 7 8).a,
             ((((quadrantB 5 6 7 8).b : Int) - ((quadrantB 5 6 7 8).d : Int)) % 2 ^ 32).toNat,
             (quadrantB 5 6 7 8).c,
             (quadrantB 5 6 7 8).d ^^^ (quadrantB 5 6 7 8).b] :=
  ⟨by decide, Hex64Hash_cross_mix 1 2 3 4 5 6 7 8 (by decide)⟩

/-- C3: on every state output word 6 is input word 6 plus `byte_swap` of input
word 5, modulo `2 ^ 32`, where the bytes of `byte_swap x` are the bytes of `x`
reversed; with input word 5 = `0x01020304` it is input word 6 plus `0x04030201`,
and with input word 6 = `0xFFFFFFFF`, input word 5 = `0x01000000` the sum wraps
around to 0. -/
theorem Hex64Hash_word6 (w0 w1 w2 w3 w4 w5 w6 w7 : Nat)
    (h : IsState [w0, w1, w2, w3, w4, w5, w6, w7]) :
    outWord (Hex64Hash [w0, w1, w2, w3, w4, w5, w6, w7]) 6 = some ((w6 + byte_swap w5) % 2 ^ 32) ∧
    toBytes (byte_swap w5) = (toBytes w5).reverse ∧
    (w5 = 0x01020304 →
      outWord (Hex64Hash [w0, w1, w2, w3, w4, w5, w6, w7]) 6 = some ((w6 + 0x04030201) % 2 ^ 32)) ∧
    (w6 = 0xFFFFFFFF → w5 = 0x01000000 →
      outWord (Hex64Hash [w0, w1, w2, w3, w4, w5, w6, w7]) 6 = some 0) := by
  have e : outWord (Hex64Hash [w0, w1, w2, w3, w4, w5, w6, w7]) 6 =
      some ((w6 + byte_swap w5) % 2 ^ 32) := by
    rw [Hex64Hash_words h]; rfl
  refine ⟨e, ?_, ?_, ?_⟩
  · obtain ⟨e0, e1, e2, e3⟩ := byteAt_builtin_bswap32 w5
    rw [byte_swap_eq]
    simp [toBytes, e0, e1, e2, e3]
  · intro h5
    rw [e, h5]
    rfl
  · intro h6 h5
    rw [e, h6, h5]
    rfl

theorem Hex64Hash_word6_witness :
    IsState [1, 2, 3, 4, 5, 0x01000000, 0xFFFFFFFF, 8] ∧
      outWord (Hex64Hash [1, 2, 3, 4, 5, 0x01000000, 0xFFFFFFFF, 8]) 6 = some 0 :=
  ⟨by decide,
    (Hex64Hash_word6 1 2 3 4 5 0x01000000 0xFFFFFFFF 8 (by decide)).2.2.2 rfl rfl⟩

/-- C4: for every 32-bit word `x` each of the six shift-and-or expressions of the
program is defined and is the rotation the spec names: `(x << n) | (x >> (32 - n))`
is `rotate_left x n` for `n` = 7, 13, 5 and `(x >> n) | (x << (32 - n))` is
`rotate_right x n` for `n` = 11, 17, 9; every shift count of the program lies
strictly between 0 and 32; and for `n` in 1..31 the rotation to the right by
`32 - n` is the rotation to the left by `n`. -/
theorem shift_or_is_rotation (x : Nat) (hx : x < 2 ^ 32) :
    shlOrShrExpr x 7 = .ok (rotate_left x 7) ∧
    shlOrShrExpr x 13 = .ok (rotate_left x 13) ∧
    shlOrShrExpr x 5 = .ok (rotate_left x 5) ∧
    shrOrShlExpr x 11 = .ok (rotate_right x 11) ∧
    shrOrShlExpr x 17 = .ok (rotate_right x 17) ∧
    shrOrShlExpr x 9 = .ok (rotate_right x 9) ∧
    (∀ n ∈ shiftCounts, 0 < n ∧ n < 32) ∧
    (∀ n, 1 ≤ n → n ≤ 31 → rotate_right x (32 - n) = rotate_left x n) := by
  have l : ∀ n, 0 < n → n < 32 → shlOrShr x n = rotate_left x n :=
    fun n h0 hn => shlOrShr_eq_rotate_left hx h0 hn
  have r : ∀ n, 0 < n → n < 32 → shrOrShl x n = rotate_right x n :=
    fun n h0 hn => shrOrShl_eq_rotate_right hx h0 hn
  refine ⟨?_, ?_, ?_, ?_, ?_, ?_, by decide, ?_⟩
  · exact congrArg Except.ok (l 7 (by norm_num) (by norm_num))
  · exact congrArg Except.ok (l 13 (by norm_num) (by norm_num))
  · exact congrArg Except.ok (l 5 (by norm_num) (by norm_num))
  · exact congrArg Except.ok (r 11 (by norm_num) (by norm_num))
  · exact congrArg Except.ok (r 17 (by norm_num) (by norm_num))
  · exact congrArg Except.ok (r 9 (by norm_num) (by norm_num))
  · intro n h1 h31
    apply Nat.eq_of_testBit_eq
    intro j
    rw [testBit_rotate_right, testBit_rotate_left]
    have e : (j + (32 - n)) % 32 = (j + (32 - n % 32)) % 32 := by
      rw [Nat.mod_eq_of_lt (by omega : n < 32)]
    rw [e]

theorem shift_or_is_rotation_witness :
    0x80000001 < 2 ^ 32 ∧ shlOrShrExpr 0x80000001 7 = .ok (rotate_left 0x80000001 7) :=
  ⟨by decide, (shift_or_is_rotation 0x80000001 (by decide)).1⟩

/-- C5: `Hex64Hash` is total on 8-word states: on every list of exactly eight
32-bit values the run is defined, so no read or write leaves the indices 0..7 and
no shift is undefined, and what it leaves is again a list of exactly eight 32-bit
values. -/
theorem Hex64Hash_total (ctx : List Nat) (h : IsState ctx) :
    ∃ out, Hex64Hash ctx = .ok out ∧ IsState out := by
  obtain ⟨w0, w1, w2, w3, w4, w5, w6, w7, rfl, -, -, -, -, h4, -, -, -⟩ := exists_words h
  refine ⟨_, Hex64Hash_words h, ?_⟩
  obtain ⟨a1, a2, a3, a4⟩ := stageA_lt w0 w1 w2 w3
  obtain ⟨b1, b2, b3, b4⟩ := stageB_lt w5 w6 w7 h4
  rw [isState_words]
  refine ⟨a1, wadd_lt _ _, a3, xor_lt a4 b1, b1, ?_, b3, xor_lt b4 b2⟩
  rw [wsub_eq]
  exact sub32_lt _ _

theorem Hex64Hash_total_witness :
    IsState (List.replicate 8 0xFFFFFFFF) ∧
      ∃ out, Hex64Hash (List.replicate 8 0xFFFFFFFF) = .ok out ∧ IsState out :=
  ⟨by decide, Hex64Hash_total (List.replicate 8 0xFFFFFFFF) (by decide)⟩

/-- C6: output words 4, 5, 6 and 7 are functions of input words 4..7 only: two
states that agree on words 4..7, whatever their words 0..3, are both run to the
end and the two results agree on words 4, 5, 6 and 7. -/
theorem Hex64Hash_words47_of_words47 (w0 w1 w2 w3 v0 v1 v2 v3 w4 w5 w6 w7 : Nat)
    (hS : IsState [w0, w1, w2, w3, w4, w5, w6, w7])
    (hT : IsState [v0, v1, v2, v3, w4, w5, w6, w7]) :
    ∀ i, 4 ≤ i → i < 8 →
      ∃ o, outWord (Hex64Hash [w0, w1, w2, w3, w4, w5, w6, w7]) i = some o ∧
           outWord (Hex64Hash [v0, v1, v2, v3, w4, w5, w6, w7]) i = some o := by
  intro i h4 h8
  rw [Hex64Hash_words hS, Hex64Hash_words hT]
  exact outWord_second_half _ _ _ _ _ _ _ _ _ _ _ _ i h4 h8

theorem Hex64Hash_words47_of_words47_witness :
    IsState [1, 2, 3, 4, 5, 6, 7, 8] ∧ IsState [9, 10, 11, 12, 5, 6, 7, 8] ∧
      ∀ i, 4 ≤ i → i < 8 →
        ∃ o, outWord (Hex64Hash [1, 2, 3, 4, 5, 6, 7, 8]) i = some o ∧
             outWord (Hex64Hash [9, 10, 11, 12, 5, 6, 7, 8]) i = some o :=
  ⟨by decide, by decide,
    Hex64Hash_words47_of_words47 1 2 3 4 9 10 11 12 5 6 7 8 (by decide) (by decide)⟩

/-- C7: output words 0 and 2 are functions of input words 0..3 only: two states
that agree on words 0..3, whatever their words 4..7, are both run to the end and
the two results agree on word 0 and on word 2. -/
theorem Hex64Hash_words02_of_words03 (w0 w1 w2 w3 w4 w5 w6 w7 v4 v5 v6 v7 : Nat)
    (hS : IsState [w0, w1, w2, w3, w4, w5, w6, w7])
    (hT : IsState [w0, w1, w2, w3, v4, v5, v6, v7]) :
    (∃ o, outWord (Hex64Hash [w0, w1, w2, w3, w4, w5, w6, w7]) 0 = some o ∧
          outWord (Hex64Hash [w0, w1, w2, w3, v4, v5, v6, v7]) 0 = some o) ∧
    (∃ o, outWord (Hex64Hash [w0, w1, w2, w3, w4, w5, w6, w7]) 2 = some o ∧
          outWord (Hex64Hash [w0, w1, w2, w3, v4, v5, v6, v7]) 2 = some o) := by
  rw [Hex64Hash_words hS, Hex64Hash_words hT]
  generalize stageA w0 w1 w2 w3 = A
  generalize stageB w4 w5 w6 w7 = B
  generalize stageB v4 v5 v6 v7 = B'
  exact ⟨⟨_, rfl, rfl⟩, ⟨_, rfl, rfl⟩⟩

theorem Hex64Hash_words02_of_words03_witness :
    IsState [1, 2, 3, 4, 5, 6, 7, 8] ∧ IsState [1, 2, 3, 4, 9, 10, 11, 12] ∧
      (∃ o, outWord (Hex64Hash [1, 2, 3, 4, 5, 6, 7, 8]) 0 = some o ∧
            outWord (Hex64Hash [1, 2, 3, 4, 9, 10, 11, 12]) 0 = some o) ∧
      (∃ o, outWord (Hex64Hash [1, 2, 3, 4, 5, 6, 7, 8]) 2 = some o ∧
            outWord (Hex64Hash [1, 2, 3, 4, 9, 10, 11, 12]) 2 = some o) :=
  ⟨by decide, by decide,
    Hex64Hash_words02_of_words03 1 2 3 4 5 6 7 8 9 10 11 12 (by decide) (by decide)⟩

/-- C8: on every state whose words 4..7 are all zero the second quadrant leaves
`eax = ebx = ecx = edx = 0`, the cross-mixing statements still run with these
values, output words 4, 5, 6, 7 are zero, word 1 is Stage A `b` plus 0 and word 3
is Stage A `d` XOR 0, so output words 0..3 are Stage A `a, b, c, d` of input
words 0..3. -/
theorem Hex64Hash_zero_second_half (w0 w1 w2 w3 : Nat)
    (h : IsState [w0, w1, w2, w3, 0, 0, 0, 0]) :
    quadrantB 0 0 0 0 = ⟨0, 0, 0, 0⟩ ∧
    Hex64Hash [w0, w1, w2, w3, 0, 0, 0, 0] =
      .ok [(stageA w0 w1 w2 w3).a, ((stageA w0 w1 w2 w3).b + 0) % 2 ^ 32,
           (stageA w0 w1 w2 w3).c, (stageA w0 w1 w2 w3).d ^^^ 0, 0, 0, 0, 0] ∧
    Hex64Hash [w0, w1, w2, w3, 0, 0, 0, 0] =
      .ok [(stageA w0 w1 w2 w3).a, (stageA w0 w1 w2 w3).b,
           (stageA w0 w1 w2 w3).c, (stageA w0 w1 w2 w3).d, 0, 0, 0, 0] := by
  have hB : quadrantB 0 0 0 0 = ⟨0, 0, 0, 0⟩ := by decide
  have hS : stageB 0 0 0 0 = ⟨0, 0, 0, 0⟩ := by
    rw [← quadrantB_eq_stageB (by norm_num), hB]
  have e := Hex64Hash_words h
  rw [hS] at e
  have hb := (stageA_lt w0 w1 w2 w3).2.1
  have e1 : wadd (stageA w0 w1 w2 w3).b 0 = (stageA w0 w1 w2 w3).b := by
    unfold wadd; rw [Nat.add_zero]; exact Nat.mod_eq_of_lt hb
  have e3 : (stageA w0 w1 w2 w3).d ^^^ 0 = (stageA w0 w1 w2 w3).d := Nat.xor_zero _
  have e5 : wsub 0 0 = 0 := rfl
  have e7 : 0 ^^^ 0 = 0 := rfl
  simp only [e5, e7] at e
  refine ⟨hB, ?_, ?_⟩
  · rw [e]; unfold wadd; rfl
  · rw [e, e1, e3]

theorem Hex64Hash_zero_second_half_witness :
    IsState [1, 2, 3, 4, 0, 0, 0, 0] ∧
      Hex64Hash [1, 2, 3, 4, 0, 0, 0, 0] =
        .ok [(stageA 1 2 3 4).a, (stageA 1 2 3 4).b, (stageA 1 2 3 4).c, (stageA 1 2 3 4).d,
             0, 0, 0, 0] :=
  ⟨by decide, (Hex64Hash_zero_second_half 1 2 3 4 (by decide)).2.2⟩

/-- C9: the order of the four cross-mixing statements has no effect: on every
state, the variant of `Hex64Hash` that runs the statements of lines 52-55 in any
permutation of their order in the source, the reversed order included, is defined
and leaves the same state as `Hex64Hash`. -/
theorem Hex64HashReordered_eq (order : List CrossOp) (ctx : List Nat)
    (hp : order.Perm sourceOrder) (h : IsState ctx) :
    (∃ out, Hex64Hash ctx = .ok out) ∧ Hex64HashReordered order ctx = Hex64Hash ctx := by
  obtain ⟨w0, w1, w2, w3, w4, w5, w6, w7, rfl, -⟩ := exists_words h
  rw [Hex64HashReordered_cons, crossMix_perm _ _ _ _ _ _ _ _ _ _ _ _ _ order hp, Hex64Hash_cons]
  exact ⟨⟨_, rfl⟩, rfl⟩

theorem Hex64HashReordered_eq_witness :
    sourceOrder.reverse.Perm sourceOrder ∧ IsState [1, 2, 3, 4, 5, 6, 7, 8] ∧
      Hex64HashReordered sourceOrder.reverse [1, 2, 3, 4, 5, 6, 7, 8] =
        Hex64Hash [1, 2, 3, 4, 5, 6, 7, 8] :=
  ⟨by decide, by decide,
    (Hex64HashReordered_eq sourceOrder.reverse [1, 2, 3, 4, 5, 6, 7, 8]
      (by decide) (by decide)).2⟩

/-- C10, as the claim states it, fails: the two distinct states
`[0,0,0,0, 0x100, 0, 0, 0xFFFFE100]` and `[0,0,0,0, 0, 0x80, 0x80000000, 0xFFFFEFF0]`
are both taken to `[0,0,0,0, 0, 0x80000000, 0, 0x80000000]`. -/
theorem Hex64Hash_collision :
    IsState [0, 0, 0, 0, 0x100, 0, 0, 0xFFFFE100] ∧
    IsState [0, 0, 0, 0, 0, 0x80, 0x80000000, 0xFFFFEFF0] ∧
    Hex64Hash [0, 0, 0, 0, 0x100, 0, 0, 0xFFFFE100] =
      .ok [0, 0, 0, 0, 0, 0x80000000, 0, 0x80000000] ∧
    Hex64Hash [0, 0, 0, 0, 0, 0x80, 0x80000000, 0xFFFFEFF0] =
      .ok [0, 0, 0, 0, 0, 0x80000000, 0, 0x80000000] ∧
    [0, 0, 0, 0, 0x100, 0, 0, 0xFFFFE100] ≠ [0, 0, 0, 0, 0, 0x80, 0x80000000, 0xFFFFEFF0] ∧
    ¬ (∀ S T : List Nat, IsState S → IsState T → Hex64Hash S = Hex64Hash T → S = T) := by
  have hS : IsState [0, 0, 0, 0, 0x100, 0, 0, 0xFFFFE100] := by decide
  have hT : IsState [0, 0, 0, 0, 0, 0x80, 0x80000000, 0xFFFFEFF0] := by decide
  have eS : Hex64Hash [0, 0, 0, 0, 0x100, 0, 0, 0xFFFFE100] =
      .ok [0, 0, 0, 0, 0, 0x80000000, 0, 0x80000000] := by rfl
  have eT : Hex64Hash [0, 0, 0, 0, 0, 0x80, 0x80000000, 0xFFFFEFF0] =
      .ok [0, 0, 0, 0, 0, 0x80000000, 0, 0x80000000] := by rfl
  have hne : [0, 0, 0, 0, 0x100, 0, 0, 0xFFFFE100] ≠
      [0, 0, 0, 0, 0, 0x80, 0x80000000, 0xFFFFEFF0] := by decide
  exact ⟨hS, hT, eS, eT, hne, fun hinj => hne (hinj _ _ hS hT (eS.trans eT.symm))⟩

/-- C10, amended: `Hex64Hash` is not injective, but two states that it takes to the
same output state agree on input words 0, 1, 2 and 3, and are equal as soon as they
also have the same input word 5. -/
theorem Hex64Hash_injective_up_to_word5 (S T : List Nat) (hS : IsState S) (hT : IsState T)
    (h : Hex64Hash S = Hex64Hash T) :
    S.take 4 = T.take 4 ∧ (S[5]? = T[5]? → S = T) := by
  obtain ⟨w0, w1, w2, w3, w4, w5, w6, w7, rfl, -⟩ := exists_words hS
  obtain ⟨v0, v1, v2, v3, v4, v5, v6, v7, rfl, -⟩ := exists_words hT
  obtain ⟨⟨e0, e1, e2, e3⟩, e⟩ := words_eq_of_Hex64Hash_eq hS hT h
  subst e0 e1 e2 e3
  refine ⟨rfl, fun h5 => ?_⟩
  have h55 : w5 = v5 := by simpa using h5
  obtain ⟨e4, e6, e7⟩ := e h55
  rw [e4, h55, e6, e7]

theorem Hex64Hash_injective_up_to_word5_witness :
    IsState [0, 0, 0, 0, 0x100, 0, 0, 0xFFFFE100] ∧
    IsState [0, 0, 0, 0, 0, 0x80, 0x80000000, 0xFFFFEFF0] ∧
    Hex64Hash [0, 0, 0, 0, 0x100, 0, 0, 0xFFFFE100] =
      Hex64Hash [0, 0, 0, 0, 0, 0x80, 0x80000000, 0xFFFFEFF0] ∧
    [0, 0, 0, 0, 0x100, 0, 0, 0xFFFFE100].take 4 =
      [0, 0, 0, 0, 0, 0x80, 0x80000000, 0xFFFFEFF0].take 4 :=
  have h : Hex64Hash [0, 0, 0, 0, 0x100, 0, 0, 0xFFFFE100] =
      Hex64Hash [0, 0, 0, 0, 0, 0x80, 0x80000000, 0xFFFFEFF0] :=
    Eq.trans
      (show Hex64Hash [0, 0, 0, 0, 0x100, 0, 0, 0xFFFFE100] =
        .ok [0, 0, 0, 0, 0, 0x80000000, 0, 0x80000000] from rfl)
      (show Hex64Hash [0, 0, 0, 0, 0, 0x80, 0x80000000, 0xFFFFEFF0] =
        .ok [0, 0, 0, 0, 0, 0x80000000, 0, 0x80000000] from rfl).symm
  ⟨by decide, by decide, h,
    (Hex64Hash_injective_up_to_word5 [0, 0, 0, 0, 0x100, 0, 0, 0xFFFFE100]
      [0, 0, 0, 0, 0, 0x80, 0x80000000, 0xFFFFEFF0] (by decide) (by decide) h).1⟩

/-- C11: `Hex64Hash` is deterministic and keeps no hidden or persistent state: on
every state, whatever the five locals hold on entry, the run is defined and leaves
the same output state and the same locals; in particular a second call on an equal
copy of the state, entered with the locals as the first call left them, leaves the
same output state as the first, and that output state is the one `Hex64Hash` gives
as a function of the eight input words alone. -/
theorem Hex64Hash_deterministic (S : List Nat) (hS : IsState S) (prior prior' : Locals) :
    ∃ out left, IsState out ∧
      Hex64HashFrom prior S = .ok (out, left) ∧
      Hex64HashFrom prior' S = .ok (out, left) ∧
      Hex64HashFrom left S = .ok (out, left) ∧
      Hex64Hash S = .ok out := by
  obtain ⟨w0, w1, w2, w3, w4, w5, w6, w7, rfl, -⟩ := exists_words hS
  exact ⟨_, _, isState_out hS, Hex64HashFrom_cons prior w0 w1 w2 w3 w4 w5 w6 w7 [],
    Hex64HashFrom_cons prior' w0 w1 w2 w3 w4 w5 w6 w7 [],
    Hex64HashFrom_cons _ w0 w1 w2 w3 w4 w5 w6 w7 [],
    Hex64Hash_cons w0 w1 w2 w3 w4 w5 w6 w7 []⟩

theorem Hex64Hash_deterministic_witness :
    IsState [1, 2, 3, 4, 5, 6, 7, 8] ∧
      ∃ out left, IsState out ∧
        Hex64HashFrom ⟨0, 0, 0, 0, 0⟩ [1, 2, 3, 4, 5, 6, 7, 8] = .ok (out, left) ∧
        Hex64HashFrom ⟨0xFFFFFFFF, 12, 13, 14, 0xDEADBEEF⟩ [1, 2, 3, 4, 5, 6, 7, 8] =
          .ok (out, left) ∧
        Hex64HashFrom left [1, 2, 3, 4, 5, 6, 7, 8] = .ok (out, left) ∧
        Hex64Hash [1, 2, 3, 4, 5, 6, 7, 8] = .ok out :=
  ⟨by decide,
    Hex64Hash_deterministic [1, 2, 3, 4, 5, 6, 7, 8] (by decide) ⟨0, 0, 0, 0, 0⟩
      ⟨0xFFFFFFFF, 12, 13, 14, 0xDEADBEEF⟩⟩

/-- C12: `Hex64Hash` touches only the eight state words: run on a buffer that holds
a state followed by further words, it is defined, the first eight words it leaves
are those it leaves for the state alone, whatever the further words are, and the
further words, hence the length of the buffer and every word at index 8 or above,
are unchanged. -/
theorem Hex64Hash_frame (ctx rest : List Nat) (h : IsState ctx) :
    ∃ out, IsState out ∧ Hex64Hash ctx = .ok out ∧
      Hex64Hash (ctx ++ rest) = .ok (out ++ rest) ∧
      (out ++ rest).length = (ctx ++ rest).length ∧
      ∀ i, 8 ≤ i → (out ++ rest)[i]? = (ctx ++ rest)[i]? := by
  obtain ⟨w0, w1, w2, w3, w4, w5, w6, w7, rfl, -⟩ := exists_words h
  obtain ⟨hl, hi⟩ := frame_tail (quadrantA w0 w1 w2 w3).a
    (add32 (quadrantA w0 w1 w2 w3).b (quadrantB w4 w5 w6 w7).c) (quadrantA w0 w1 w2 w3).c
    ((quadrantA w0 w1 w2 w3).d ^^^ (quadrantB w4 w5 w6 w7).a) (quadrantB w4 w5 w6 w7).a
    (sub32 (quadrantB w4 w5 w6 w7).b (quadrantB w4 w5 w6 w7).d) (quadrantB w4 w5 w6 w7).c
    ((quadrantB w4 w5 w6 w7).d ^^^ (quadrantB w4 w5 w6 w7).b) w0 w1 w2 w3 w4 w5 w6 w7 rest
  exact ⟨_, isState_out h, Hex64Hash_cons w0 w1 w2 w3 w4 w5 w6 w7 [],
    Hex64Hash_cons w0 w1 w2 w3 w4 w5 w6 w7 rest, hl, hi⟩

theorem Hex64Hash_frame_witness :
    IsState [1, 2, 3, 4, 5, 6, 7, 8] ∧
      ∃ out, IsState out ∧ Hex64Hash [1, 2, 3, 4, 5, 6, 7, 8] = .ok out ∧
        Hex64Hash ([1, 2, 3, 4, 5, 6, 7, 8] ++ [9, 10]) = .ok (out ++ [9, 10]) ∧
        (out ++ [9, 10]).length = ([1, 2, 3, 4, 5, 6, 7, 8] ++ [9, 10]).length ∧
        ∀ i, 8 ≤ i → (out ++ [9, 10])[i]? = ([1, 2, 3, 4, 5, 6, 7, 8] ++ [9, 10])[i]? :=
  ⟨by decide, Hex64Hash_frame [1, 2, 3, 4, 5, 6, 7, 8] [9, 10] (by decide)⟩

/-- C13: on every state with input words `w4..w7`, output word 4 is
`w4 XOR (w7 + rotate_left((w4 + w5) XOR w6, 5))` with the additions modulo `2 ^ 32`:
the scratch value is computed from the words as loaded, and computing it leaves
`eax`, `ebx`, `ecx` alone, so that `ebx` and `ecx` end as the byte swap of `w5` and
`w6` plus that byte swap. -/
theorem Hex64Hash_word4 (w0 w1 w2 w3 w4 w5 w6 w7 : Nat)
    (h : IsState [w0, w1, w2, w3, w4, w5, w6, w7]) :
    outWord (Hex64Hash [w0, w1, w2, w3, w4, w5, w6, w7]) 4 =
      some (w4 ^^^ ((w7 + rotate_left (((w4 + w5) % 2 ^ 32) ^^^ w6) 5) % 2 ^ 32)) ∧
    (quadrantB w4 w5 w6 w7).b = builtin_bswap32 w5 ∧
    (quadrantB w4 w5 w6 w7).c = (w6 + builtin_bswap32 w5) % 2 ^ 32 := by
  refine ⟨?_, rfl, rfl⟩
  rw [Hex64Hash_words h]
  rfl

theorem Hex64Hash_word4_witness :
    IsState [1, 2, 3, 4, 5, 6, 7, 8] ∧
      outWord (Hex64Hash [1, 2, 3, 4, 5, 6, 7, 8]) 4 =
        some (5 ^^^ ((8 + rotate_left (((5 + 6) % 2 ^ 32) ^^^ 7) 5) % 2 ^ 32)) :=
  ⟨by decide, (Hex64Hash_word4 1 2 3 4 5 6 7 8 (by decide)).1⟩

/-- C14: the all-zero state is a fixed point: `Hex64Hash` run on
`[0,0,0,0,0,0,0,0]` is defined and leaves `[0,0,0,0,0,0,0,0]`. -/
theorem Hex64Hash_zero :
    Hex64Hash [0, 0, 0, 0, 0, 0, 0, 0] = .ok [0, 0, 0, 0, 0, 0, 0, 0] := by
  rfl

/-- C15: `Hex64Hash` run on the state whose eight words are all `0xFFFFFFFF` is
defined and leaves `[0xF01FFFFD, 0x20BE87F6, 0xFFEFBE03, 0x00104162, 0xFFFFFFE0,
0x0F000000, 0xFFFFFFFE, 0x0F000000]`. -/
theorem Hex64Hash_all_ones :
    Hex64Hash [0xFFFFFFFF, 0xFFFFFFFF, 0xFFFFFFFF, 0xFFFFFFFF,
               0xFFFFFFFF, 0xFFFFFFFF, 0xFFFFFFFF, 0xFFFFFFFF] =
      .ok [0xF01FFFFD, 0x20BE87F6, 0xFFEFBE03, 0x00104162,
           0xFFFFFFE0, 0x0F000000, 0xFFFFFFFE, 0x0F000000] := by
  rfl

/-- C16: collisions of `Hex64Hash` need input word 5 to differ: two states with the
same input word 5 that are taken to the same output state are equal; in particular
replacing any single word other than word 5 of a state by another 32-bit value
changes the output. -/
theorem Hex64Hash_injective_of_word5 (S T : List Nat) (hS : IsState S) (hT : IsState T)
    (h5 : S[5]? = T[5]?) :
    (Hex64Hash S = Hex64Hash T → S = T) ∧
    ∀ i v, i < 8 → i ≠ 5 → v < 2 ^ 32 → S[i]? ≠ some v →
      Hex64Hash (S.set i v) ≠ Hex64Hash S := by
  have key : ∀ S T : List Nat, IsState S → IsState T → S[5]? = T[5]? →
      Hex64Hash S = Hex64Hash T → S = T := by
    intro S T hS hT h5 h
    obtain ⟨w0, w1, w2, w3, w4, w5, w6, w7, rfl, -⟩ := exists_words hS
    obtain ⟨v0, v1, v2, v3, v4, v5, v6, v7, rfl, -⟩ := exists_words hT
    obtain ⟨⟨e0, e1, e2, e3⟩, e⟩ := words_eq_of_Hex64Hash_eq hS hT h
    have h55 : w5 = v5 := by simpa using h5
    obtain ⟨e4, e6, e7⟩ := e h55
    rw [e0, e1, e2, e3, e4, h55, e6, e7]
  refine ⟨key S T hS hT h5, fun i v hi hne hv hSi hcol => ?_⟩
  have hset : IsState (S.set i v) := by
    refine ⟨by rw [List.length_set]; exact hS.1, fun w hw => ?_⟩
    rcases List.mem_or_eq_of_mem_set hw with hw | hw
    · exact hS.2 w hw
    · rw [hw]; exact hv
  have h5set : (S.set i v)[5]? = S[5]? := List.getElem?_set_ne hne
  have heq : S.set i v = S := key _ _ hset hS h5set hcol
  apply hSi
  have hlen : i < S.length := by rw [hS.1]; exact hi
  have := List.getElem?_set_eq_of_lt v hlen
  rw [heq] at this
  exact this

theorem Hex64Hash_injective_of_word5_witness :
    IsState [1, 2, 3, 4, 5, 6, 7, 8] ∧ IsState [9, 2, 3, 4, 5, 6, 7, 8] ∧
      ([1, 2, 3, 4, 5, 6, 7, 8] : List Nat)[5]? = ([9, 2, 3, 4, 5, 6, 7, 8] : List Nat)[5]? ∧
      Hex64Hash [1, 2, 3, 4, 5, 6, 7, 8] ≠ Hex64Hash [9, 2, 3, 4, 5, 6, 7, 8] :=
  ⟨by decide, by decide, rfl, fun h =>
    absurd ((Hex64Hash_injective_of_word5 [1, 2, 3, 4, 5, 6, 7, 8] [9, 2, 3, 4, 5, 6, 7, 8]
      (by decide) (by decide) rfl).1 h) (by decide)⟩

/-- C17: with words 4..7 held fixed the first half of the state is transformed
injectively: two states that agree on input words 4..7 and whose outputs agree on
words 0, 1, 2 and 3 agree on input words 0, 1, 2 and 3. -/
theorem Hex64Hash_first_half_injective (w0 w1 w2 w3 v0 v1 v2 v3 w4 w5 w6 w7 : Nat)
    (hS : IsState [w0, w1, w2, w3, w4, w5, w6, w7])
    (hT : IsState [v0, v1, v2, v3, w4, w5, w6, w7])
    (h : ∀ i, i < 4 → outWord (Hex64Hash [w0, w1, w2, w3, w4, w5, w6, w7]) i =
      outWord (Hex64Hash [v0, v1, v2, v3, w4, w5, w6, w7]) i) :
    w0 = v0 ∧ w1 = v1 ∧ w2 = v2 ∧ w3 = v3 := by
  obtain ⟨h0, h1, h2, h3, -⟩ := isState_words.mp hS
  obtain ⟨g0, g1, g2, g3, -⟩ := isState_words.mp hT
  rw [Hex64Hash_cons, Hex64Hash_cons] at h
  obtain ⟨e0, e1, e2, e3⟩ := first_half_eq_of_outWord _ _ _ _ _ _ _ _ _ _ h
  obtain ⟨-, ab, -, -⟩ := quadrantA_lt w0 w3 h1 h2
  obtain ⟨-, ab', -, -⟩ := quadrantA_lt v0 v3 g1 g2
  exact quadrantA_inj h0 h1 h2 h3 g0 g1 g2 g3
    (quad_ext e0 (add32_right_cancel ab ab' e1) e2 (xor_right_cancel e3))

theorem Hex64Hash_first_half_injective_witness :
    IsState [1, 2, 3, 4, 5, 6, 7, 8] ∧
      (∀ i, i < 4 → outWord (Hex64Hash [1, 2, 3, 4, 5, 6, 7, 8]) i =
        outWord (Hex64Hash [1, 2, 3, 4, 5, 6, 7, 8]) i) ∧
      (1 = 1 ∧ 2 = 2 ∧ 3 = 3 ∧ 4 = 4) ∧
      IsState [9, 2, 3, 4, 5, 6, 7, 8] ∧
      ¬ (∀ i, i < 4 → outWord (Hex64Hash [1, 2, 3, 4, 5, 6, 7, 8]) i =
        outWord (Hex64Hash [9, 2, 3, 4, 5, 6, 7, 8]) i) :=
  ⟨by decide, fun _ _ => rfl,
    Hex64Hash_first_half_injective 1 2 3 4 1 2 3 4 5 6 7 8 (by decide) (by decide)
      (fun _ _ => rfl),
    by decide, fun h =>
    absurd (Hex64Hash_first_half_injective 1 2 3 4 9 2 3 4 5 6 7 8 (by decide) (by decide) h).1
      (by decide)⟩

end Hex64
